import Mathlib

/-!
Verification of the `intervals-general` interval library.

The development shallowly embeds the Rust sources:
  * `src/bound_pair.rs` — `BoundPair<T>` and its validating constructor `new`;
  * `src/interval.rs` — the eleven-variant `Interval<T>` enum, the internal
    normalized `Bound<T>` representation, and the operations `contains`,
    `intersect`, `left_partial_cmp`, `right_partial_cmp`, `width`,
    `complement`.

The Rust operations are generic over `T: PartialOrd`, and the crate's
domains include floats with NaN.  The primary embedding is therefore over
an arbitrary Rust-style `partial_cmp` function (`RustPartialOrd`):
`containsP`, `intersectP`, `doubleComplementP`, the `*BoundCmpP` tables and
`wellFormedP` below, which expose the incomparable-value (NaN) path.  A
parallel `[LinearOrder T]` copy of each operation embeds the same code at a
totally ordered domain (the crate's `u32`/`i32` instantiations) and is
proved equal to the generic embedding at `linearPcmp` (`*_linear` lemmas),
so properties that depend on totality can be stated where they hold.
-/

namespace IntervalsGeneral

/-- `BoundPair<T>` from `src/bound_pair.rs`: a plain pair of a left and right
value.  The strict order invariant is enforced by the constructor `new`
below, not by the structure itself (the Rust struct's fields are
`pub(crate)`, and `intersect` builds `BoundPair` literals directly). -/
structure BoundPair (T : Type) where
  left : T
  right : T
deriving DecidableEq, Repr

/-- A Rust `PartialOrd` instance, embedded as its `partial_cmp` function:
`none` models incomparable values (e.g. NaN). -/
structure RustPartialOrd (T : Type) where
  pcmp : T → T → Option Ordering

/-- `BoundPair::new` from `src/bound_pair.rs`, over an arbitrary Rust
`PartialOrd`: `Some(BoundPair{left,right})` exactly when
`left.partial_cmp(&right) == Some(Ordering::Less)`, otherwise `None`. -/
def BoundPair.new {T : Type} (pc : RustPartialOrd T) (left right : T) :
    Option (BoundPair T) :=
  match pc.pcmp left right with
  | some Ordering.lt => some ⟨left, right⟩
  | _ => none

/-- The `partial_cmp` of a linearly ordered domain (total, never `none`):
the Rust `PartialOrd` of domains like `u32` or `i32`. -/
def linearPcmp (T : Type) [LinearOrder T] : RustPartialOrd T :=
  ⟨fun a b => some (compare a b)⟩

/-- A model of a float-like domain: `none` plays NaN, incomparable with
everything; `some q` compares by the rational `q`. -/
def floatPcmp : RustPartialOrd (Option ℚ) :=
  ⟨fun a b =>
    match a, b with
    | some x, some y => some (compare x y)
    | _, _ => none⟩

/-- `Interval<T>` from `src/interval.rs`: the eleven variants.  The Rust
field `at` of `Singleton` is a Lean keyword, so that constructor takes its
value positionally. -/
inductive Interval (T : Type) where
  | Closed (bound_pair : BoundPair T)
  | Open (bound_pair : BoundPair T)
  | LeftHalfOpen (bound_pair : BoundPair T)
  | RightHalfOpen (bound_pair : BoundPair T)
  | UnboundedClosedRight (right : T)
  | UnboundedOpenRight (right : T)
  | UnboundedClosedLeft (left : T)
  | UnboundedOpenLeft (left : T)
  | Singleton (a : T)
  | Unbounded
  | Empty
deriving DecidableEq, Repr

/-- The internal `Bound<T>` enum from `src/interval.rs`: `None` for the
Empty interval's bounds, `Unbounded`, and bounded `Open`/`Closed` values. -/
inductive Bound (T : Type) where
  | None
  | Unbounded
  | Open (val : T)
  | Closed (val : T)
deriving DecidableEq, Repr

variable {T : Type}

/-- `Interval::left_bound` from `src/interval.rs`. -/
def Interval.left_bound : Interval T → Bound T
  | .Empty => .None
  | .Singleton a => .Closed a
  | .Unbounded | .UnboundedClosedRight _ | .UnboundedOpenRight _ => .Unbounded
  | .Closed bp | .RightHalfOpen bp => .Closed bp.left
  | .UnboundedClosedLeft l => .Closed l
  | .Open bp | .LeftHalfOpen bp => .Open bp.left
  | .UnboundedOpenLeft l => .Open l

/-- `Interval::right_bound` from `src/interval.rs`. -/
def Interval.right_bound : Interval T → Bound T
  | .Empty => .None
  | .Singleton a => .Closed a
  | .Unbounded | .UnboundedClosedLeft _ | .UnboundedOpenLeft _ => .Unbounded
  | .Closed bp | .LeftHalfOpen bp => .Closed bp.right
  | .UnboundedClosedRight r => .Closed r
  | .Open bp | .RightHalfOpen bp => .Open bp.right
  | .UnboundedOpenRight r => .Open r

/-- The match of `Interval::left_partial_cmp` from `src/interval.rs`,
over the two already-normalized left bounds, at a totally ordered domain
(the PartialOrd-generic form is `leftBoundCmpP` below; they agree at
`linearPcmp` by `leftBoundCmpP_linear`). -/
def leftBoundCmp [LinearOrder T] : Bound T → Bound T → Option Ordering
  | .None, _ => none
  | _, .None => none
  | .Unbounded, .Unbounded => some .eq
  | .Unbounded, _ => some .lt
  | _, .Unbounded => some .gt
  | .Closed x, .Closed y =>
      if x < y then some .lt else if x > y then some .gt else some .eq
  | .Closed x, .Open y => if x ≤ y then some .lt else some .gt
  | .Open x, .Closed y => if x < y then some .lt else some .gt
  | .Open x, .Open y =>
      if x < y then some .lt else if x > y then some .gt else some .eq

/-- The match of `Interval::right_partial_cmp` from `src/interval.rs`,
over the two already-normalized right bounds, at a totally ordered domain
(the PartialOrd-generic form is `rightBoundCmpP` below; they agree at
`linearPcmp` by `rightBoundCmpP_linear`). -/
def rightBoundCmp [LinearOrder T] : Bound T → Bound T → Option Ordering
  | .None, _ => none
  | _, .None => none
  | .Unbounded, .Unbounded => some .eq
  | .Unbounded, _ => some .gt
  | _, .Unbounded => some .lt
  | .Closed x, .Closed y =>
      if x < y then some .lt else if x > y then some .gt else some .eq
  | .Closed x, .Open y => if x < y then some .lt else some .gt
  | .Open x, .Closed y => if x ≤ y then some .lt else some .gt
  | .Open x, .Open y =>
      if x < y then some .lt else if x > y then some .gt else some .eq

/-- `Interval::left_partial_cmp` from `src/interval.rs`: normalize both
left bounds, then compare them by the bound-kind table. -/
def Interval.left_partial_cmp [LinearOrder T] (i1 i2 : Interval T) :
    Option Ordering :=
  leftBoundCmp i1.left_bound i2.left_bound

/-- `Interval::right_partial_cmp` from `src/interval.rs`. -/
def Interval.right_partial_cmp [LinearOrder T] (i1 i2 : Interval T) :
    Option Ordering :=
  rightBoundCmp i1.right_bound i2.right_bound

/-- `Interval::contains` from `src/interval.rs`: `left_contained` and
`right_contained` computed over the normalized bounds, then conjoined;
at a totally ordered domain (the PartialOrd-generic form is `containsP`
below; they agree at `linearPcmp` by `containsP_linear`). -/
def Interval.contains [LinearOrder T] (i1 i2 : Interval T) : Bool :=
  let left_contained : Bool :=
    match i1.left_bound, i2.left_bound with
    | .None, _ => false
    | _, .None => true
    | .Unbounded, _ => true
    | _, .Unbounded => false
    | .Closed x, .Closed y | .Closed x, .Open y | .Open x, .Open y =>
        decide (x ≤ y)
    | .Open x, .Closed y => decide (x < y)
  let right_contained : Bool :=
    match i1.right_bound, i2.right_bound with
    | .None, _ => false
    | _, .None => false
    | .Unbounded, _ => true
    | _, .Unbounded => false
    | .Closed x, .Closed y | .Closed x, .Open y | .Open x, .Open y =>
        decide (x ≥ y)
    | .Open x, .Closed y => decide (x > y)
  left_contained && right_contained

/-- The final match of `Interval::intersect` from `src/interval.rs`:
reassemble the chosen left and right bounds into a concrete variant; at a
totally ordered domain (the PartialOrd-generic form is `reassembleP`
below; they agree at `linearPcmp` by `reassembleP_linear`). -/
def reassemble [LinearOrder T] : Bound T → Bound T → Interval T
  | .None, _ => .Empty
  | _, .None => .Empty
  | .Closed l, .Closed r =>
      if l > r then .Empty
      else if l = r then .Singleton l
      else .Closed ⟨l, r⟩
  | .Open l, .Open r => if l ≥ r then .Empty else .Open ⟨l, r⟩
  | .Open l, .Closed r => if l ≥ r then .Empty else .LeftHalfOpen ⟨l, r⟩
  | .Closed l, .Open r => if l ≥ r then .Empty else .RightHalfOpen ⟨l, r⟩
  | .Unbounded, .Closed r => .UnboundedClosedRight r
  | .Unbounded, .Open r => .UnboundedOpenRight r
  | .Closed l, .Unbounded => .UnboundedClosedLeft l
  | .Open l, .Unbounded => .UnboundedOpenLeft l
  | .Unbounded, .Unbounded => .Unbounded

/-- `Interval::intersect` from `src/interval.rs`: if either side's bound
comparison is undefined, `Empty`; otherwise keep self's bound on a side
unless the other's is strictly more restrictive, and reassemble.  At a
totally ordered domain (the PartialOrd-generic form is `intersectP` below;
they agree at `linearPcmp` by `intersectP_linear`). -/
def Interval.intersect [LinearOrder T] (i1 i2 : Interval T) : Interval T :=
  let left_cmp_partial := i1.left_partial_cmp i2
  let right_cmp_partial := i1.right_partial_cmp i2
  if left_cmp_partial.isNone || right_cmp_partial.isNone then .Empty
  else
    let left_bound :=
      if left_cmp_partial ≠ some Ordering.lt then i1.left_bound
      else i2.left_bound
    let right_bound :=
      if right_cmp_partial ≠ some Ordering.gt then i1.right_bound
      else i2.right_bound
    reassemble left_bound right_bound

/-- `Interval::width` from `src/interval.rs`: the difference of the two
bound values when both are finite, `None` otherwise. -/
def Interval.width [Sub T] (i : Interval T) : Option T :=
  match i.left_bound, i.right_bound with
  | .None, _ => none
  | _, .None => none
  | .Unbounded, _ => none
  | _, .Unbounded => none
  | .Closed l, .Closed r => some (r - l)
  | .Closed l, .Open r => some (r - l)
  | .Open l, .Closed r => some (r - l)
  | .Open l, .Open r => some (r - l)

/-- `Interval::complement` from `src/interval.rs`.  The Rust function
returns `itertools::Either` of a one-element or a two-element iterator;
embedded as a sum of one interval or an ordered pair of intervals. -/
def Interval.complement : Interval T → Interval T ⊕ (Interval T × Interval T)
  | .Closed ⟨l, r⟩ => .inr (.UnboundedOpenRight l, .UnboundedOpenLeft r)
  | .Open ⟨l, r⟩ => .inr (.UnboundedClosedRight l, .UnboundedClosedLeft r)
  | .LeftHalfOpen ⟨l, r⟩ => .inr (.UnboundedClosedRight l, .UnboundedOpenLeft r)
  | .RightHalfOpen ⟨l, r⟩ => .inr (.UnboundedOpenRight l, .UnboundedClosedLeft r)
  | .UnboundedClosedRight r => .inl (.UnboundedOpenLeft r)
  | .UnboundedOpenRight r => .inl (.UnboundedClosedLeft r)
  | .UnboundedClosedLeft l => .inl (.UnboundedOpenRight l)
  | .UnboundedOpenLeft l => .inl (.UnboundedClosedRight l)
  | .Singleton a => .inr (.UnboundedOpenRight a, .UnboundedOpenLeft a)
  | .Unbounded => .inl .Empty
  | .Empty => .inl .Unbounded

/-- The first interval of a one-or-two-piece complement result (Rust tests
take it with `.next().unwrap()`). -/
def firstPiece : Interval T ⊕ (Interval T × Interval T) → Interval T
  | .inl j => j
  | .inr (j, _) => j

/-- The double-complement recombination of the repository's quickcheck
property `complement_symmetric_u32`: complement each piece of
`complement i`, and intersect the two results when there are two pieces. -/
def Interval.doubleComplement [LinearOrder T] (i : Interval T) : Interval T :=
  match i.complement with
  | .inl j => firstPiece j.complement
  | .inr (j1, j2) =>
      (firstPiece j1.complement).intersect (firstPiece j2.complement)

/-- The well-formedness invariant of the library: every `bound_pair`
payload satisfies `left < right` strictly (the invariant `BoundPair::new`
establishes); the variants without a `bound_pair` are well-formed.  At a
totally ordered domain (the PartialOrd-generic form is `wellFormedP`
below; they agree at `linearPcmp` by `wellFormedP_linear`). -/
def Interval.wellFormed [LinearOrder T] : Interval T → Bool
  | .Closed bp | .Open bp | .LeftHalfOpen bp | .RightHalfOpen bp =>
      decide (bp.left < bp.right)
  | _ => true

/-!
### The PartialOrd-generic embedding

The Rust operations are generic over `T: PartialOrd`, and the crate's
tested domains include floats, whose NaN is incomparable with everything.
The following definitions repeat the interval operations over an arbitrary
`RustPartialOrd`, exposing the incomparable-value path: in the source's
trichotomy chains (`if a < b … else if a > b … else Equal`) incomparable
pairs fall through to the `Equal` arm, and `x <= x` is false at NaN.  The
`[LinearOrder T]` definitions above are proved below to be this embedding
specialized to `linearPcmp` (a total order).
-/

/-- Rust's derived `PartialOrd::lt`: `matches!(partial_cmp, Some(Less))`. -/
def RustPartialOrd.blt (pc : RustPartialOrd T) (a b : T) : Bool :=
  match pc.pcmp a b with
  | some Ordering.lt => true
  | _ => false

/-- Rust's derived `PartialOrd::gt`: `matches!(partial_cmp, Some(Greater))`. -/
def RustPartialOrd.bgt (pc : RustPartialOrd T) (a b : T) : Bool :=
  match pc.pcmp a b with
  | some Ordering.gt => true
  | _ => false

/-- Rust's derived `PartialOrd::le`:
`matches!(partial_cmp, Some(Less | Equal))`. -/
def RustPartialOrd.ble (pc : RustPartialOrd T) (a b : T) : Bool :=
  match pc.pcmp a b with
  | some Ordering.lt => true
  | some Ordering.eq => true
  | _ => false

/-- Rust's derived `PartialOrd::ge`:
`matches!(partial_cmp, Some(Greater | Equal))`. -/
def RustPartialOrd.bge (pc : RustPartialOrd T) (a b : T) : Bool :=
  match pc.pcmp a b with
  | some Ordering.gt => true
  | some Ordering.eq => true
  | _ => false

/-- Rust `PartialEq::eq` of a `PartialOrd`-coherent implementation (ints,
floats): `a == b` iff `partial_cmp(a, b) == Some(Equal)`; in particular
`NaN == NaN` is false. -/
def RustPartialOrd.beq (pc : RustPartialOrd T) (a b : T) : Bool :=
  match pc.pcmp a b with
  | some Ordering.eq => true
  | _ => false

/-- The match of `Interval::left_partial_cmp` over an arbitrary Rust
`PartialOrd`.  Note the source's Closed/Closed and Open/Open chains send
incomparable pairs to the `Equal` arm. -/
def leftBoundCmpP (pc : RustPartialOrd T) : Bound T → Bound T → Option Ordering
  | .None, _ => none
  | _, .None => none
  | .Unbounded, .Unbounded => some .eq
  | .Unbounded, _ => some .lt
  | _, .Unbounded => some .gt
  | .Closed x, .Closed y =>
      if pc.blt x y then some .lt
      else if pc.bgt x y then some .gt
      else some .eq
  | .Closed x, .Open y => if pc.ble x y then some .lt else some .gt
  | .Open x, .Closed y => if pc.blt x y then some .lt else some .gt
  | .Open x, .Open y =>
      if pc.blt x y then some .lt
      else if pc.bgt x y then some .gt
      else some .eq

/-- The match of `Interval::right_partial_cmp` over an arbitrary Rust
`PartialOrd`. -/
def rightBoundCmpP (pc : RustPartialOrd T) :
    Bound T → Bound T → Option Ordering
  | .None, _ => none
  | _, .None => none
  | .Unbounded, .Unbounded => some .eq
  | .Unbounded, _ => some .gt
  | _, .Unbounded => some .lt
  | .Closed x, .Closed y =>
      if pc.blt x y then some .lt
      else if pc.bgt x y then some .gt
      else some .eq
  | .Closed x, .Open y => if pc.blt x y then some .lt else some .gt
  | .Open x, .Closed y => if pc.ble x y then some .lt else some .gt
  | .Open x, .Open y =>
      if pc.blt x y then some .lt
      else if pc.bgt x y then some .gt
      else some .eq

/-- `Interval::left_partial_cmp` over an arbitrary Rust `PartialOrd`. -/
def Interval.left_partial_cmpP (pc : RustPartialOrd T) (i1 i2 : Interval T) :
    Option Ordering :=
  leftBoundCmpP pc i1.left_bound i2.left_bound

/-- `Interval::right_partial_cmp` over an arbitrary Rust `PartialOrd`. -/
def Interval.right_partial_cmpP (pc : RustPartialOrd T) (i1 i2 : Interval T) :
    Option Ordering :=
  rightBoundCmpP pc i1.right_bound i2.right_bound

/-- `Interval::contains` over an arbitrary Rust `PartialOrd`: the source's
`<=`/`<`/`>=`/`>` become the derived `PartialOrd` operators, all of which
are false at incomparable pairs (e.g. `NaN <= NaN` is false). -/
def Interval.containsP (pc : RustPartialOrd T) (i1 i2 : Interval T) : Bool :=
  let left_contained : Bool :=
    match i1.left_bound, i2.left_bound with
    | .None, _ => false
    | _, .None => true
    | .Unbounded, _ => true
    | _, .Unbounded => false
    | .Closed x, .Closed y | .Closed x, .Open y | .Open x, .Open y =>
        pc.ble x y
    | .Open x, .Closed y => pc.blt x y
  let right_contained : Bool :=
    match i1.right_bound, i2.right_bound with
    | .None, _ => false
    | _, .None => false
    | .Unbounded, _ => true
    | _, .Unbounded => false
    | .Closed x, .Closed y | .Closed x, .Open y | .Open x, .Open y =>
        pc.bge x y
    | .Open x, .Closed y => pc.bgt x y
  left_contained && right_contained

/-- The final match of `Interval::intersect` over an arbitrary Rust
`PartialOrd`: at incomparable values both `left > right` and
`left == right` are false, so a `Closed{v, v}` pair can be emitted. -/
def reassembleP (pc : RustPartialOrd T) : Bound T → Bound T → Interval T
  | .None, _ => .Empty
  | _, .None => .Empty
  | .Closed l, .Closed r =>
      if pc.bgt l r then .Empty
      else if pc.beq l r then .Singleton l
      else .Closed ⟨l, r⟩
  | .Open l, .Open r => if pc.bge l r then .Empty else .Open ⟨l, r⟩
  | .Open l, .Closed r => if pc.bge l r then .Empty else .LeftHalfOpen ⟨l, r⟩
  | .Closed l, .Open r => if pc.bge l r then .Empty else .RightHalfOpen ⟨l, r⟩
  | .Unbounded, .Closed r => .UnboundedClosedRight r
  | .Unbounded, .Open r => .UnboundedOpenRight r
  | .Closed l, .Unbounded => .UnboundedClosedLeft l
  | .Open l, .Unbounded => .UnboundedOpenLeft l
  | .Unbounded, .Unbounded => .Unbounded

/-- `Interval::intersect` over an arbitrary Rust `PartialOrd`. -/
def Interval.intersectP (pc : RustPartialOrd T) (i1 i2 : Interval T) :
    Interval T :=
  let left_cmp_partial := i1.left_partial_cmpP pc i2
  let right_cmp_partial := i1.right_partial_cmpP pc i2
  if left_cmp_partial.isNone || right_cmp_partial.isNone then .Empty
  else
    let left_bound :=
      if left_cmp_partial ≠ some Ordering.lt then i1.left_bound
      else i2.left_bound
    let right_bound :=
      if right_cmp_partial ≠ some Ordering.gt then i1.right_bound
      else i2.right_bound
    reassembleP pc left_bound right_bound

/-- The double-complement recombination of the repository's quickcheck
property, over an arbitrary Rust `PartialOrd`. -/
def Interval.doubleComplementP (pc : RustPartialOrd T) (i : Interval T) :
    Interval T :=
  match i.complement with
  | .inl j => firstPiece j.complement
  | .inr (j1, j2) =>
      (firstPiece j1.complement).intersectP pc (firstPiece j2.complement)

/-- The well-formedness invariant over an arbitrary Rust `PartialOrd`:
every `bound_pair` payload satisfies `left < right` strictly. -/
def Interval.wellFormedP (pc : RustPartialOrd T) : Interval T → Bool
  | .Closed bp | .Open bp | .LeftHalfOpen bp | .RightHalfOpen bp =>
      pc.blt bp.left bp.right
  | _ => true

/-- The payload values of an interval (the raw endpoint data of each
variant). -/
def Interval.vals : Interval T → List T
  | .Closed bp | .Open bp | .LeftHalfOpen bp | .RightHalfOpen bp =>
      [bp.left, bp.right]
  | .UnboundedClosedRight r | .UnboundedOpenRight r => [r]
  | .UnboundedClosedLeft l | .UnboundedOpenLeft l => [l]
  | .Singleton a => [a]
  | .Unbounded | .Empty => []

/-- Every payload value of the interval is comparable with itself
(`partial_cmp(x, x) == Some(Equal)`) — true of every value except
NaN-like ones. -/
def Interval.allSelfComp (pc : RustPartialOrd T) (i : Interval T) : Bool :=
  i.vals.all fun x => pc.beq x x

/-- Every two payload values of the two operands (including across the
operands) are comparable under the partial order. -/
def mutuallyComp (pc : RustPartialOrd T) (i1 i2 : Interval T) : Prop :=
  ∀ x ∈ i1.vals ++ i2.vals, ∀ y ∈ i1.vals ++ i2.vals, pc.pcmp x y ≠ none

/-! ### Helper lemmas -/

/-- The same-kind value comparison of the `partial_cmp` matches is `compare`. -/
lemma cmpVal_eq_compare [LinearOrder T] (x y : T) :
    (if x < y then some Ordering.lt
     else if x > y then some Ordering.gt
     else some Ordering.eq) = some (compare x y) := by
  rcases lt_trichotomy x y with h | h | h
  · simp [h, compare_lt_iff_lt.mpr h]
  · subst h
    simp [lt_irrefl, compare_eq_iff_eq.mpr rfl]
  · simp [h, lt_asymm h, gt_iff_lt, compare_gt_iff_gt.mpr h]

/-- The same-kind value comparison never yields `none`. -/
lemma sameCmp_isSome [LinearOrder T] (x y : T) :
    (if x < y then some Ordering.lt
     else if x > y then some Ordering.gt
     else some Ordering.eq).isNone = false := by
  split_ifs <;> rfl

/-- Selecting "self's bound unless other's left is strictly greater" on two
bounds of the same kind picks the larger value. -/
lemma samePickMax [LinearOrder T] (k : T → Bound T) (x y : T) :
    (if (if x < y then some Ordering.lt
         else if x > y then some Ordering.gt
         else some Ordering.eq) ≠ some Ordering.lt then k x else k y) =
      k (max x y) := by
  rcases lt_trichotomy x y with h | h | h
  · simp [h, max_eq_right h.le]
  · subst h
    simp [lt_irrefl, max_self]
  · simp [h, lt_asymm h, gt_iff_lt, max_eq_left h.le]

/-- Selecting "self's bound unless other's right is strictly less" on two
bounds of the same kind picks the smaller value. -/
lemma samePickMin [LinearOrder T] (k : T → Bound T) (x y : T) :
    (if (if x < y then some Ordering.lt
         else if x > y then some Ordering.gt
         else some Ordering.eq) ≠ some Ordering.gt then k x else k y) =
      k (min x y) := by
  rcases lt_trichotomy x y with h | h | h
  · simp [h, lt_asymm h, min_eq_left h.le]
  · subst h
    simp [lt_irrefl, min_self]
  · simp [h, lt_asymm h, gt_iff_lt, min_eq_right h.le]

/-- Swapping the operands of the left-bound comparison swaps the ordering. -/
lemma leftBoundCmp_swap [LinearOrder T] (b1 b2 : Bound T) :
    leftBoundCmp b2 b1 = (leftBoundCmp b1 b2).map Ordering.swap := by
  cases b1 <;> cases b2 <;> try rfl
  all_goals rename_i x y
  all_goals
    rcases lt_trichotomy x y with h | h | h
    · simp [leftBoundCmp, h, le_of_lt h, lt_asymm h, not_le_of_lt h,
        gt_iff_lt, Ordering.swap]
    · subst h
      simp [leftBoundCmp, lt_irrefl, gt_iff_lt, Ordering.swap]
    · simp [leftBoundCmp, h, le_of_lt h, lt_asymm h, not_le_of_lt h,
        gt_iff_lt, Ordering.swap]

/-- Swapping the operands of the right-bound comparison swaps the ordering. -/
lemma rightBoundCmp_swap [LinearOrder T] (b1 b2 : Bound T) :
    rightBoundCmp b2 b1 = (rightBoundCmp b1 b2).map Ordering.swap := by
  cases b1 <;> cases b2 <;> try rfl
  all_goals rename_i x y
  all_goals
    rcases lt_trichotomy x y with h | h | h
    · simp [rightBoundCmp, h, le_of_lt h, lt_asymm h, not_le_of_lt h,
        gt_iff_lt, Ordering.swap]
    · subst h
      simp [rightBoundCmp, lt_irrefl, gt_iff_lt, Ordering.swap]
    · simp [rightBoundCmp, h, le_of_lt h, lt_asymm h, not_le_of_lt h,
        gt_iff_lt, Ordering.swap]

/-- An `Equal` left-bound comparison forces the two bounds to coincide. -/
lemma leftBoundCmp_eq_eq [LinearOrder T] (b1 b2 : Bound T)
    (h : leftBoundCmp b1 b2 = some Ordering.eq) : b1 = b2 := by
  cases b1 <;> cases b2 <;> simp_all [leftBoundCmp]
  all_goals split_ifs at h <;> simp_all
  all_goals exact le_antisymm (by assumption) (by assumption)

/-- An `Equal` right-bound comparison forces the two bounds to coincide. -/
lemma rightBoundCmp_eq_eq [LinearOrder T] (b1 b2 : Bound T)
    (h : rightBoundCmp b1 b2 = some Ordering.eq) : b1 = b2 := by
  cases b1 <;> cases b2 <;> simp_all [rightBoundCmp]
  all_goals split_ifs at h <;> simp_all
  all_goals exact le_antisymm (by assumption) (by assumption)

/-! ### The total order as a Rust PartialOrd -/

/-- Over a total order the derived `lt` is the order's `<`. -/
lemma linear_blt [LinearOrder T] (x y : T) :
    (linearPcmp T).blt x y = decide (x < y) := by
  rcases lt_trichotomy x y with h | h | h
  · simp [linearPcmp, RustPartialOrd.blt, compare_lt_iff_lt.mpr h, h]
  · subst h
    simp [linearPcmp, RustPartialOrd.blt, compare_eq_iff_eq.mpr rfl, lt_irrefl]
  · simp [linearPcmp, RustPartialOrd.blt, compare_gt_iff_gt.mpr h, lt_asymm h]

/-- Over a total order the derived `gt` is the order's `>`. -/
lemma linear_bgt [LinearOrder T] (x y : T) :
    (linearPcmp T).bgt x y = decide (y < x) := by
  rcases lt_trichotomy x y with h | h | h
  · simp [linearPcmp, RustPartialOrd.bgt, compare_lt_iff_lt.mpr h, lt_asymm h]
  · subst h
    simp [linearPcmp, RustPartialOrd.bgt, compare_eq_iff_eq.mpr rfl, lt_irrefl]
  · simp [linearPcmp, RustPartialOrd.bgt, compare_gt_iff_gt.mpr h, h]

/-- Over a total order the derived `le` is the order's `≤`. -/
lemma linear_ble [LinearOrder T] (x y : T) :
    (linearPcmp T).ble x y = decide (x ≤ y) := by
  rcases lt_trichotomy x y with h | h | h
  · simp [linearPcmp, RustPartialOrd.ble, compare_lt_iff_lt.mpr h, le_of_lt h]
  · subst h
    simp [linearPcmp, RustPartialOrd.ble, compare_eq_iff_eq.mpr rfl, le_refl]
  · simp [linearPcmp, RustPartialOrd.ble, compare_gt_iff_gt.mpr h,
      not_le_of_lt h]

/-- Over a total order the derived `ge` is the order's `≥`. -/
lemma linear_bge [LinearOrder T] (x y : T) :
    (linearPcmp T).bge x y = decide (y ≤ x) := by
  rcases lt_trichotomy x y with h | h | h
  · simp [linearPcmp, RustPartialOrd.bge, compare_lt_iff_lt.mpr h,
      not_le_of_lt h]
  · subst h
    simp [linearPcmp, RustPartialOrd.bge, compare_eq_iff_eq.mpr rfl, le_refl]
  · simp [linearPcmp, RustPartialOrd.bge, compare_gt_iff_gt.mpr h, le_of_lt h]

/-- Over a total order the coherent `eq` is propositional equality. -/
lemma linear_beq [LinearOrder T] (x y : T) :
    (linearPcmp T).beq x y = decide (x = y) := by
  rcases lt_trichotomy x y with h | h | h
  · simp [linearPcmp, RustPartialOrd.beq, compare_lt_iff_lt.mpr h, ne_of_lt h]
  · subst h
    simp [linearPcmp, RustPartialOrd.beq, compare_eq_iff_eq.mpr rfl]
  · simp [linearPcmp, RustPartialOrd.beq, compare_gt_iff_gt.mpr h, ne_of_gt h]

/-- The PartialOrd-generic left comparison table at a total order is the
`[LinearOrder]` one. -/
lemma leftBoundCmpP_linear [LinearOrder T] (b1 b2 : Bound T) :
    leftBoundCmpP (linearPcmp T) b1 b2 = leftBoundCmp b1 b2 := by
  cases b1 <;> cases b2 <;>
    simp [leftBoundCmpP, leftBoundCmp, linear_blt, linear_bgt, linear_ble,
      linear_bge, gt_iff_lt]

/-- The PartialOrd-generic right comparison table at a total order is the
`[LinearOrder]` one. -/
lemma rightBoundCmpP_linear [LinearOrder T] (b1 b2 : Bound T) :
    rightBoundCmpP (linearPcmp T) b1 b2 = rightBoundCmp b1 b2 := by
  cases b1 <;> cases b2 <;>
    simp [rightBoundCmpP, rightBoundCmp, linear_blt, linear_bgt, linear_ble,
      linear_bge, gt_iff_lt]

/-- The PartialOrd-generic reassembly at a total order is the
`[LinearOrder]` one. -/
lemma reassembleP_linear [LinearOrder T] (b1 b2 : Bound T) :
    reassembleP (linearPcmp T) b1 b2 = reassemble b1 b2 := by
  cases b1 <;> cases b2 <;>
    simp [reassembleP, reassemble, linear_blt, linear_bgt, linear_beq,
      linear_bge, gt_iff_lt, ge_iff_le]

/-- The PartialOrd-generic intersection at a total order is the
`[LinearOrder]` one. -/
lemma intersectP_linear [LinearOrder T] (i1 i2 : Interval T) :
    i1.intersectP (linearPcmp T) i2 = i1.intersect i2 := by
  simp only [Interval.intersectP, Interval.intersect,
    Interval.left_partial_cmpP, Interval.right_partial_cmpP,
    Interval.left_partial_cmp, Interval.right_partial_cmp,
    leftBoundCmpP_linear, rightBoundCmpP_linear, reassembleP_linear]

/-- The PartialOrd-generic containment at a total order is the
`[LinearOrder]` one. -/
lemma containsP_linear [LinearOrder T] (i1 i2 : Interval T) :
    i1.containsP (linearPcmp T) i2 = i1.contains i2 := by
  cases i1 <;> cases i2 <;>
    simp [Interval.containsP, Interval.contains, Interval.left_bound,
      Interval.right_bound, linear_blt, linear_bgt, linear_ble, linear_bge,
      gt_iff_lt, ge_iff_le]

/-- The PartialOrd-generic well-formedness at a total order is the
`[LinearOrder]` one. -/
lemma wellFormedP_linear [LinearOrder T] (i : Interval T) :
    i.wellFormedP (linearPcmp T) = i.wellFormed := by
  cases i <;> simp [Interval.wellFormedP, Interval.wellFormed, linear_blt]

/-! ### Bridging facts about the derived PartialOrd operators -/

/-- Equal values are `le`. -/
lemma ble_of_beq (pc : RustPartialOrd T) (x y : T)
    (h : pc.beq x y = true) : pc.ble x y = true := by
  rcases hp : pc.pcmp x y with _ | o
  · simp_all [RustPartialOrd.ble, RustPartialOrd.beq]
  · cases o <;> simp_all [RustPartialOrd.ble, RustPartialOrd.beq]

/-- Equal values are `ge`. -/
lemma bge_of_beq (pc : RustPartialOrd T) (x y : T)
    (h : pc.beq x y = true) : pc.bge x y = true := by
  rcases hp : pc.pcmp x y with _ | o
  · simp_all [RustPartialOrd.bge, RustPartialOrd.beq]
  · cases o <;> simp_all [RustPartialOrd.bge, RustPartialOrd.beq]

/-- Equal values are not `gt`. -/
lemma bgt_eq_false_of_beq (pc : RustPartialOrd T) (x y : T)
    (h : pc.beq x y = true) : pc.bgt x y = false := by
  rcases hp : pc.pcmp x y with _ | o
  · simp_all [RustPartialOrd.bgt, RustPartialOrd.beq]
  · cases o <;> simp_all [RustPartialOrd.bgt, RustPartialOrd.beq]

/-- Strictly smaller values are not `gt`. -/
lemma bgt_eq_false_of_blt (pc : RustPartialOrd T) (x y : T)
    (h : pc.blt x y = true) : pc.bgt x y = false := by
  rcases hp : pc.pcmp x y with _ | o
  · simp_all [RustPartialOrd.bgt, RustPartialOrd.blt]
  · cases o <;> simp_all [RustPartialOrd.bgt, RustPartialOrd.blt]

/-- Strictly smaller values are not equal. -/
lemma beq_eq_false_of_blt (pc : RustPartialOrd T) (x y : T)
    (h : pc.blt x y = true) : pc.beq x y = false := by
  rcases hp : pc.pcmp x y with _ | o
  · simp_all [RustPartialOrd.beq, RustPartialOrd.blt]
  · cases o <;> simp_all [RustPartialOrd.beq, RustPartialOrd.blt]

/-- Strictly smaller values are not `ge`. -/
lemma bge_eq_false_of_blt (pc : RustPartialOrd T) (x y : T)
    (h : pc.blt x y = true) : pc.bge x y = false := by
  rcases hp : pc.pcmp x y with _ | o
  · simp_all [RustPartialOrd.bge, RustPartialOrd.blt]
  · cases o <;> simp_all [RustPartialOrd.bge, RustPartialOrd.blt]

/-- Comparable values that are neither `gt` nor equal are `lt`. -/
lemma blt_of_guards (pc : RustPartialOrd T) (x y : T)
    (hc : pc.pcmp x y ≠ none) (hg : pc.bgt x y = false)
    (he : pc.beq x y = false) : pc.blt x y = true := by
  rcases hp : pc.pcmp x y with _ | o
  · exact absurd hp hc
  · cases o <;>
      simp_all [RustPartialOrd.blt, RustPartialOrd.bgt, RustPartialOrd.beq]

/-- Comparable values that are not `ge` are `lt`. -/
lemma blt_of_bge_false (pc : RustPartialOrd T) (x y : T)
    (hc : pc.pcmp x y ≠ none) (hg : pc.bge x y = false) :
    pc.blt x y = true := by
  rcases hp : pc.pcmp x y with _ | o
  · exact absurd hp hc
  · cases o <;> simp_all [RustPartialOrd.blt, RustPartialOrd.bge]

/-- A bounded left bound's value is one of the interval's payload values. -/
lemma left_bound_val_mem (i : Interval T) (v : T)
    (h : i.left_bound = Bound.Closed v ∨ i.left_bound = Bound.Open v) :
    v ∈ i.vals := by
  cases i <;> simp_all [Interval.left_bound, Interval.vals]

/-- A bounded right bound's value is one of the interval's payload
values. -/
lemma right_bound_val_mem (i : Interval T) (v : T)
    (h : i.right_bound = Bound.Closed v ∨ i.right_bound = Bound.Open v) :
    v ∈ i.vals := by
  cases i <;> simp_all [Interval.right_bound, Interval.vals]

/-- When every pair of bounded values fed to the reassembly is comparable,
the result is well-formed. -/
lemma reassembleP_wf (pc : RustPartialOrd T) (b1 b2 : Bound T)
    (h : ∀ v w, (b1 = Bound.Closed v ∨ b1 = Bound.Open v) →
      (b2 = Bound.Closed w ∨ b2 = Bound.Open w) → pc.pcmp v w ≠ none) :
    (reassembleP pc b1 b2).wellFormedP pc = true := by
  cases b1 <;> cases b2 <;> simp only [reassembleP] <;> try rfl
  case Closed.Closed v w =>
    split_ifs with hg he
    · rfl
    · rfl
    · exact blt_of_guards pc v w (h v w (Or.inl rfl) (Or.inl rfl))
        (Bool.eq_false_iff.mpr hg) (Bool.eq_false_iff.mpr he)
  case Open.Open v w =>
    split_ifs with hg
    · rfl
    · exact blt_of_bge_false pc v w (h v w (Or.inr rfl) (Or.inr rfl))
        (Bool.eq_false_iff.mpr hg)
  case Open.Closed v w =>
    split_ifs with hg
    · rfl
    · exact blt_of_bge_false pc v w (h v w (Or.inr rfl) (Or.inl rfl))
        (Bool.eq_false_iff.mpr hg)
  case Closed.Open v w =>
    split_ifs with hg
    · rfl
    · exact blt_of_bge_false pc v w (h v w (Or.inl rfl) (Or.inr rfl))
        (Bool.eq_false_iff.mpr hg)

/-! ### Claim theorems -/

/-- Claim C1: for every interval `I` of any of the 11 variants,
`I.contains(Empty) == false` and `Empty.contains(I) == false`; in
particular `Empty.contains(Empty) == false`. -/
theorem claim_C1 [LinearOrder T] (i : Interval T) :
    i.contains .Empty = false ∧
    (Interval.Empty : Interval T).contains i = false := by
  cases i <;> exact ⟨rfl, rfl⟩

/-- Claim C3: `BoundPair::new(left, right)` returns `Some` pair with those
fields iff `left < right` strictly under the domain's partial order; it
returns `None` when `left > right`, when `left == right`, and when the
values are incomparable (`partial_cmp` yields nothing, e.g. NaN). -/
theorem claim_C3 {T : Type} (pc : RustPartialOrd T) (l r : T) :
    (BoundPair.new pc l r = some ⟨l, r⟩ ↔ pc.pcmp l r = some Ordering.lt) ∧
    (pc.pcmp l r = some Ordering.gt → BoundPair.new pc l r = none) ∧
    (pc.pcmp l r = some Ordering.eq → BoundPair.new pc l r = none) ∧
    (pc.pcmp l r = none → BoundPair.new pc l r = none) := by
  unfold BoundPair.new
  rcases h : pc.pcmp l r with _ | o
  · simp
  · cases o <;> simp

/-- Claim C8 counterexample: over the float model `Singleton(NaN)` is
well-formed and non-Empty, yet does not contain itself (`NaN <= NaN` is
false), refuting reflexivity as claimed. -/
theorem claim_C8_counterexample :
    (Interval.Singleton (none : Option ℚ)).containsP floatPcmp
      (.Singleton none) = false ∧
    (Interval.Singleton (none : Option ℚ)).wellFormedP floatPcmp = true ∧
    Interval.Singleton (none : Option ℚ) ≠ .Empty := by
  refine ⟨by decide, rfl, by decide⟩

/-- Claim C8 (amended): `contains` is reflexive on every well-formed
non-Empty variant whose payload values are each comparable with
themselves (`partial_cmp(x,x) == Some(Equal)`, which excludes NaN-like
values), while `Empty.contains(Empty) == false` over any domain. -/
theorem claim_C8 {T : Type} (pc : RustPartialOrd T) (i : Interval T)
    (hwf : i.wellFormedP pc = true) (hsc : i.allSelfComp pc = true)
    (hne : i ≠ .Empty) :
    i.containsP pc i = true ∧
    (Interval.Empty : Interval T).containsP pc .Empty = false := by
  refine ⟨?_, rfl⟩
  cases i
  case Empty => exact absurd rfl hne
  case Unbounded => rfl
  case Singleton a =>
    have ha : pc.beq a a = true := by
      simpa [Interval.allSelfComp, Interval.vals] using hsc
    simp [Interval.containsP, Interval.left_bound, Interval.right_bound,
      ble_of_beq pc a a ha, bge_of_beq pc a a ha]
  case UnboundedClosedRight r =>
    have hr : pc.beq r r = true := by
      simpa [Interval.allSelfComp, Interval.vals] using hsc
    simp [Interval.containsP, Interval.left_bound, Interval.right_bound,
      bge_of_beq pc r r hr]
  case UnboundedOpenRight r =>
    have hr : pc.beq r r = true := by
      simpa [Interval.allSelfComp, Interval.vals] using hsc
    simp [Interval.containsP, Interval.left_bound, Interval.right_bound,
      bge_of_beq pc r r hr]
  case UnboundedClosedLeft l =>
    have hl : pc.beq l l = true := by
      simpa [Interval.allSelfComp, Interval.vals] using hsc
    simp [Interval.containsP, Interval.left_bound, Interval.right_bound,
      ble_of_beq pc l l hl]
  case UnboundedOpenLeft l =>
    have hl : pc.beq l l = true := by
      simpa [Interval.allSelfComp, Interval.vals] using hsc
    simp [Interval.containsP, Interval.left_bound, Interval.right_bound,
      ble_of_beq pc l l hl]
  case Closed bp =>
    obtain ⟨l, r⟩ := bp
    simp only [Interval.allSelfComp, Interval.vals, List.all_cons,
      List.all_nil, Bool.and_true, Bool.and_eq_true] at hsc
    simp [Interval.containsP, Interval.left_bound, Interval.right_bound,
      ble_of_beq pc l l hsc.1, bge_of_beq pc r r hsc.2]
  case Open bp =>
    obtain ⟨l, r⟩ := bp
    simp only [Interval.allSelfComp, Interval.vals, List.all_cons,
      List.all_nil, Bool.and_true, Bool.and_eq_true] at hsc
    simp [Interval.containsP, Interval.left_bound, Interval.right_bound,
      ble_of_beq pc l l hsc.1, bge_of_beq pc r r hsc.2]
  case LeftHalfOpen bp =>
    obtain ⟨l, r⟩ := bp
    simp only [Interval.allSelfComp, Interval.vals, List.all_cons,
      List.all_nil, Bool.and_true, Bool.and_eq_true] at hsc
    simp [Interval.containsP, Interval.left_bound, Interval.right_bound,
      ble_of_beq pc l l hsc.1, bge_of_beq pc r r hsc.2]
  case RightHalfOpen bp =>
    obtain ⟨l, r⟩ := bp
    simp only [Interval.allSelfComp, Interval.vals, List.all_cons,
      List.all_nil, Bool.and_true, Bool.and_eq_true] at hsc
    simp [Interval.containsP, Interval.left_bound, Interval.right_bound,
      ble_of_beq pc l l hsc.1, bge_of_beq pc r r hsc.2]

theorem claim_C8_witness :
    (Interval.Singleton (3 : ℤ)).containsP (linearPcmp ℤ) (.Singleton 3)
      = true ∧
    (Interval.Empty : Interval ℤ).containsP (linearPcmp ℤ) .Empty = false :=
  claim_C8 (linearPcmp ℤ) (Interval.Singleton 3) rfl (by decide) (by decide)

/-- Claim C10: `width(I)` is `Some(right-bound-value - left-bound-value)`
exactly for the four two-sided shapes and `Singleton`, and `None` for
`Empty`, `Unbounded` and the four intervals with an unbounded side. -/
theorem claim_C10 {T : Type} [Sub T] (bp : BoundPair T) (x : T) :
    (Interval.Closed bp).width = some (bp.right - bp.left) ∧
    (Interval.Open bp).width = some (bp.right - bp.left) ∧
    (Interval.LeftHalfOpen bp).width = some (bp.right - bp.left) ∧
    (Interval.RightHalfOpen bp).width = some (bp.right - bp.left) ∧
    (Interval.Singleton x : Interval T).width = some (x - x) ∧
    (Interval.Empty : Interval T).width = none ∧
    (Interval.Unbounded : Interval T).width = none ∧
    (Interval.UnboundedClosedRight x : Interval T).width = none ∧
    (Interval.UnboundedOpenRight x : Interval T).width = none ∧
    (Interval.UnboundedClosedLeft x : Interval T).width = none ∧
    (Interval.UnboundedOpenLeft x : Interval T).width = none :=
  ⟨rfl, rfl, rfl, rfl, rfl, rfl, rfl, rfl, rfl, rfl, rfl⟩

/-- Intersection of two `Closed` intervals reduces to reassembling the
larger left value and the smaller right value, both closed. -/
lemma intersect_Closed_Closed [LinearOrder T] (bp1 bp2 : BoundPair T) :
    (Interval.Closed bp1).intersect (.Closed bp2) =
      reassemble (Bound.Closed (max bp1.left bp2.left))
        (Bound.Closed (min bp1.right bp2.right)) := by
  obtain ⟨l1, r1⟩ := bp1
  obtain ⟨l2, r2⟩ := bp2
  simp only [Interval.intersect, Interval.left_partial_cmp,
    Interval.right_partial_cmp, Interval.left_bound, Interval.right_bound,
    leftBoundCmp, rightBoundCmp]
  rw [samePickMax Bound.Closed l1 l2, samePickMin Bound.Closed r1 r2,
    sameCmp_isSome, sameCmp_isSome]
  rfl

/-- Intersection of two `Open` intervals reduces to reassembling the
larger left value and the smaller right value, both open. -/
lemma intersect_Open_Open [LinearOrder T] (bp1 bp2 : BoundPair T) :
    (Interval.Open bp1).intersect (.Open bp2) =
      reassemble (Bound.Open (max bp1.left bp2.left))
        (Bound.Open (min bp1.right bp2.right)) := by
  obtain ⟨l1, r1⟩ := bp1
  obtain ⟨l2, r2⟩ := bp2
  simp only [Interval.intersect, Interval.left_partial_cmp,
    Interval.right_partial_cmp, Interval.left_bound, Interval.right_bound,
    leftBoundCmp, rightBoundCmp]
  rw [samePickMax Bound.Open l1 l2, samePickMin Bound.Open r1 r2,
    sameCmp_isSome, sameCmp_isSome]
  rfl

/-- Intersection of two `LeftHalfOpen` intervals reduces to reassembling
the larger open left value and the smaller closed right value. -/
lemma intersect_LeftHalfOpen_LeftHalfOpen [LinearOrder T]
    (bp1 bp2 : BoundPair T) :
    (Interval.LeftHalfOpen bp1).intersect (.LeftHalfOpen bp2) =
      reassemble (Bound.Open (max bp1.left bp2.left))
        (Bound.Closed (min bp1.right bp2.right)) := by
  obtain ⟨l1, r1⟩ := bp1
  obtain ⟨l2, r2⟩ := bp2
  simp only [Interval.intersect, Interval.left_partial_cmp,
    Interval.right_partial_cmp, Interval.left_bound, Interval.right_bound,
    leftBoundCmp, rightBoundCmp]
  rw [samePickMax Bound.Open l1 l2, samePickMin Bound.Closed r1 r2,
    sameCmp_isSome, sameCmp_isSome]
  rfl

/-- Intersection of two `RightHalfOpen` intervals reduces to reassembling
the larger closed left value and the smaller open right value. -/
lemma intersect_RightHalfOpen_RightHalfOpen [LinearOrder T]
    (bp1 bp2 : BoundPair T) :
    (Interval.RightHalfOpen bp1).intersect (.RightHalfOpen bp2) =
      reassemble (Bound.Closed (max bp1.left bp2.left))
        (Bound.Open (min bp1.right bp2.right)) := by
  obtain ⟨l1, r1⟩ := bp1
  obtain ⟨l2, r2⟩ := bp2
  simp only [Interval.intersect, Interval.left_partial_cmp,
    Interval.right_partial_cmp, Interval.left_bound, Interval.right_bound,
    leftBoundCmp, rightBoundCmp]
  rw [samePickMax Bound.Closed l1 l2, samePickMin Bound.Open r1 r2,
    sameCmp_isSome, sameCmp_isSome]
  rfl

/-- Claim C2: `intersect` reassembles a `Closed` left bound and a `Closed`
right bound as: `left > right` gives `Empty`, `left == right` gives
`Singleton` at that value, otherwise `Closed`; in particular
`Closed(0,5) ∩ Closed(5,10) = Singleton(5)` and
`Open(0,5) ∩ Open(5,10) = Empty`. -/
theorem claim_C2 {T : Type} [LinearOrder T] (bp1 bp2 : BoundPair T) :
    ((Interval.Closed bp1).intersect (.Closed bp2) =
      if max bp1.left bp2.left > min bp1.right bp2.right then .Empty
      else if max bp1.left bp2.left = min bp1.right bp2.right then
        .Singleton (max bp1.left bp2.left)
      else .Closed ⟨max bp1.left bp2.left, min bp1.right bp2.right⟩) ∧
    ((Interval.Closed ⟨0, 5⟩ : Interval ℤ).intersect (.Closed ⟨5, 10⟩) =
      .Singleton 5) ∧
    ((Interval.Open ⟨0, 5⟩ : Interval ℤ).intersect (.Open ⟨5, 10⟩) =
      .Empty) :=
  ⟨by rw [intersect_Closed_Closed]; rfl, by decide, by decide⟩

/-- Claim C9: the bound-kind ordering rules of `left_partial_cmp` and
`right_partial_cmp`: a `None` (Empty) bound on either side yields no
result; `Unbounded` sorts below every bounded left bound and above every
bounded right bound, with `Unbounded` vs `Unbounded` equal; same-kind
bounded bounds compare by raw value; `Closed(x)` vs `Open(y)` on the left
is `Less` iff `x ≤ y`, `Open(x)` vs `Closed(y)` on the left is `Less` iff
`x < y`; the right side applies the mirrored rules. -/
theorem claim_C9 [LinearOrder T] (x y : T) (b : Bound T)
    (i1 i2 : Interval T) :
    (i1.left_partial_cmp i2 = leftBoundCmp i1.left_bound i2.left_bound) ∧
    (i1.right_partial_cmp i2 = rightBoundCmp i1.right_bound i2.right_bound) ∧
    (leftBoundCmp Bound.None b = none) ∧
    (leftBoundCmp b Bound.None = none) ∧
    (rightBoundCmp Bound.None b = none) ∧
    (rightBoundCmp b Bound.None = none) ∧
    (leftBoundCmp (Bound.Unbounded : Bound T) .Unbounded =
      some Ordering.eq) ∧
    (rightBoundCmp (Bound.Unbounded : Bound T) .Unbounded =
      some Ordering.eq) ∧
    (leftBoundCmp Bound.Unbounded (Bound.Closed x) = some Ordering.lt) ∧
    (leftBoundCmp Bound.Unbounded (Bound.Open x) = some Ordering.lt) ∧
    (leftBoundCmp (Bound.Closed x) Bound.Unbounded = some Ordering.gt) ∧
    (leftBoundCmp (Bound.Open x) Bound.Unbounded = some Ordering.gt) ∧
    (rightBoundCmp Bound.Unbounded (Bound.Closed x) = some Ordering.gt) ∧
    (rightBoundCmp Bound.Unbounded (Bound.Open x) = some Ordering.gt) ∧
    (rightBoundCmp (Bound.Closed x) Bound.Unbounded = some Ordering.lt) ∧
    (rightBoundCmp (Bound.Open x) Bound.Unbounded = some Ordering.lt) ∧
    (leftBoundCmp (Bound.Closed x) (Bound.Closed y) = some (compare x y)) ∧
    (leftBoundCmp (Bound.Open x) (Bound.Open y) = some (compare x y)) ∧
    (rightBoundCmp (Bound.Closed x) (Bound.Closed y) = some (compare x y)) ∧
    (rightBoundCmp (Bound.Open x) (Bound.Open y) = some (compare x y)) ∧
    (leftBoundCmp (Bound.Closed x) (Bound.Open y) =
      if x ≤ y then some Ordering.lt else some Ordering.gt) ∧
    (leftBoundCmp (Bound.Open x) (Bound.Closed y) =
      if x < y then some Ordering.lt else some Ordering.gt) ∧
    (rightBoundCmp (Bound.Closed x) (Bound.Open y) =
      if x < y then some Ordering.lt else some Ordering.gt) ∧
    (rightBoundCmp (Bound.Open x) (Bound.Closed y) =
      if x ≤ y then some Ordering.lt else some Ordering.gt) := by
  refine ⟨rfl, rfl, ?_, ?_, ?_, ?_, rfl, rfl, rfl, rfl, rfl, rfl, rfl,
    rfl, rfl, rfl, ?_, ?_, ?_, ?_, rfl, rfl, rfl, rfl⟩
  · cases b <;> rfl
  · cases b <;> rfl
  · cases b <;> rfl
  · cases b <;> rfl
  · exact cmpVal_eq_compare x y
  · exact cmpVal_eq_compare x y
  · exact cmpVal_eq_compare x y
  · exact cmpVal_eq_compare x y

/-- Claim C4 counterexample: over the float model, intersecting the
well-formed operands `Singleton(NaN)` and `Singleton(1)` emits
`Closed{NaN, NaN}` (both bound comparisons hit the Equal arm, and the
`NaN > NaN` / `NaN == NaN` guards are both false), which violates the
`left < right` invariant. -/
theorem claim_C4_counterexample :
    (Interval.Singleton (none : Option ℚ)).intersectP floatPcmp
      (.Singleton (some 1)) = .Closed ⟨none, none⟩ ∧
    (Interval.Closed (⟨none, none⟩ : BoundPair (Option ℚ))).wellFormedP
      floatPcmp = false ∧
    (Interval.Singleton (none : Option ℚ)).wellFormedP floatPcmp = true ∧
    (Interval.Singleton (some (1 : ℚ))).wellFormedP floatPcmp = true := by
  refine ⟨by decide, by decide, rfl, rfl⟩

/-- Claim C4 (amended): `intersect` preserves the bound-pair
well-formedness invariant for well-formed operands all of whose payload
values are pairwise comparable (no NaN-like incomparable pair among the
operands' endpoint values): every `bound_pair` payload of the result then
satisfies `left < right` strictly. -/
theorem claim_C4 {T : Type} (pc : RustPartialOrd T) (i1 i2 : Interval T)
    (h1 : i1.wellFormedP pc = true) (h2 : i2.wellFormedP pc = true)
    (hcomp : mutuallyComp pc i1 i2) :
    (i1.intersectP pc i2).wellFormedP pc = true := by
  by_cases hn : ((i1.left_partial_cmpP pc i2).isNone
      || (i1.right_partial_cmpP pc i2).isNone) = true
  · simp [Interval.intersectP, hn, Interval.wellFormedP]
  · simp only [Interval.intersectP]
    rw [if_neg hn]
    apply reassembleP_wf
    intro v w hv hw
    have hv' : v ∈ i1.vals ++ i2.vals := by
      by_cases hc : i1.left_partial_cmpP pc i2 ≠ some Ordering.lt
      · rw [if_pos hc] at hv
        exact List.mem_append_left _ (left_bound_val_mem i1 v hv)
      · rw [if_neg hc] at hv
        exact List.mem_append_right _ (left_bound_val_mem i2 v hv)
    have hw' : w ∈ i1.vals ++ i2.vals := by
      by_cases hc : i1.right_partial_cmpP pc i2 ≠ some Ordering.gt
      · rw [if_pos hc] at hw
        exact List.mem_append_left _ (right_bound_val_mem i1 w hw)
      · rw [if_neg hc] at hw
        exact List.mem_append_right _ (right_bound_val_mem i2 w hw)
    exact hcomp v hv' w hw'

theorem claim_C4_witness :
    ((Interval.Closed ⟨0, 5⟩ : Interval ℤ).intersectP (linearPcmp ℤ)
      (.Closed ⟨5, 10⟩)).wellFormedP (linearPcmp ℤ) = true :=
  claim_C4 (linearPcmp ℤ) (Interval.Closed ⟨0, 5⟩) (.Closed ⟨5, 10⟩)
    (by decide) (by decide) (by unfold mutuallyComp; decide)

/-- `intersect` is commutative (for all intervals, well-formed or not). -/
lemma intersect_comm [LinearOrder T] (i1 i2 : Interval T) :
    i1.intersect i2 = i2.intersect i1 := by
  rcases hL : leftBoundCmp i1.left_bound i2.left_bound with _ | o
  · have hL2 : leftBoundCmp i2.left_bound i1.left_bound = none := by
      rw [leftBoundCmp_swap, hL]; rfl
    simp [Interval.intersect, Interval.left_partial_cmp,
      Interval.right_partial_cmp, hL, hL2]
  · rcases hR : rightBoundCmp i1.right_bound i2.right_bound with _ | p
    · have hR2 : rightBoundCmp i2.right_bound i1.right_bound = none := by
        rw [rightBoundCmp_swap, hR]; rfl
      simp [Interval.intersect, Interval.left_partial_cmp,
        Interval.right_partial_cmp, hR, hR2]
    · have hL2 : leftBoundCmp i2.left_bound i1.left_bound = some o.swap := by
        rw [leftBoundCmp_swap, hL]; rfl
      have hR2 : rightBoundCmp i2.right_bound i1.right_bound
          = some p.swap := by
        rw [rightBoundCmp_swap, hR]; rfl
      cases o <;> cases p <;>
        simp [Interval.intersect, Interval.left_partial_cmp,
          Interval.right_partial_cmp, hL, hR, hL2, hR2, Ordering.swap]
      all_goals try rw [leftBoundCmp_eq_eq _ _ hL]
      all_goals try rw [rightBoundCmp_eq_eq _ _ hR]

/-- Claim C6 counterexample: over the float model `intersect` is not
commutative: `Singleton(NaN) ∩ Singleton(1) = Closed{NaN, NaN}` while
`Singleton(1) ∩ Singleton(NaN) = Singleton(1)`, on well-formed operands. -/
theorem claim_C6_counterexample :
    (Interval.Singleton (none : Option ℚ)).intersectP floatPcmp
        (.Singleton (some 1)) ≠
      (Interval.Singleton (some (1 : ℚ))).intersectP floatPcmp
        (.Singleton none) ∧
    (Interval.Singleton (none : Option ℚ)).wellFormedP floatPcmp = true ∧
    (Interval.Singleton (some (1 : ℚ))).wellFormedP floatPcmp = true := by
  refine ⟨by decide, rfl, rfl⟩

/-- Claim C6 (amended): over a totally ordered domain `intersect` is
commutative for well-formed intervals, and over any partially ordered
domain `Empty` on either side yields `Empty` (with NaN-like incomparable
values commutativity fails). -/
theorem claim_C6 {T U : Type} [LinearOrder T] (pc : RustPartialOrd U)
    (i1 i2 : Interval T) (j : Interval U)
    (h1 : i1.wellFormedP (linearPcmp T) = true)
    (h2 : i2.wellFormedP (linearPcmp T) = true) :
    i1.intersectP (linearPcmp T) i2 = i2.intersectP (linearPcmp T) i1 ∧
    (Interval.Empty : Interval U).intersectP pc j = .Empty ∧
    j.intersectP pc .Empty = .Empty := by
  refine ⟨?_, ?_, ?_⟩
  · rw [intersectP_linear, intersectP_linear]
    exact intersect_comm i1 i2
  · cases j <;> rfl
  · cases j <;> rfl

theorem claim_C6_witness :
    ((Interval.Closed ⟨0, 5⟩ : Interval ℤ).intersectP (linearPcmp ℤ)
        (.Open ⟨3, 8⟩) =
      (Interval.Open ⟨3, 8⟩ : Interval ℤ).intersectP (linearPcmp ℤ)
        (.Closed ⟨0, 5⟩)) ∧
    ((Interval.Empty : Interval (Option ℚ)).intersectP floatPcmp
      (.Singleton (some 1)) = .Empty) ∧
    ((Interval.Singleton (some (1 : ℚ))).intersectP floatPcmp .Empty
      = .Empty) :=
  claim_C6 floatPcmp (Interval.Closed ⟨0, 5⟩) (.Open ⟨3, 8⟩)
    (.Singleton (some 1)) (by decide) (by decide)

/-- Claim C5 counterexample: over the float model the double complement
of the well-formed interval `Singleton(NaN)` reassembles `Closed{NaN, NaN}`
instead of the original interval. -/
theorem claim_C5_counterexample :
    (Interval.Singleton (none : Option ℚ)).doubleComplementP floatPcmp
      = .Closed ⟨none, none⟩ ∧
    Interval.Closed (⟨none, none⟩ : BoundPair (Option ℚ)) ≠
      Interval.Singleton none ∧
    (Interval.Singleton (none : Option ℚ)).wellFormedP floatPcmp = true := by
  refine ⟨by decide, by decide, rfl⟩

/-- Claim C5 (amended): the double complement (complementing each piece
and intersecting when the complement had two pieces) recovers every
well-formed interval of the 11 variants whose payload values are each
comparable with themselves (which excludes NaN-like values). -/
theorem claim_C5 {T : Type} (pc : RustPartialOrd T) (i : Interval T)
    (hwf : i.wellFormedP pc = true) (hsc : i.allSelfComp pc = true) :
    i.doubleComplementP pc = i := by
  cases i <;> try rfl
  case Singleton a =>
    have ha : pc.beq a a = true := by
      simpa [Interval.allSelfComp, Interval.vals] using hsc
    simp [Interval.doubleComplementP, Interval.complement, firstPiece,
      Interval.intersectP, Interval.left_partial_cmpP,
      Interval.right_partial_cmpP, Interval.left_bound, Interval.right_bound,
      leftBoundCmpP, rightBoundCmpP, reassembleP,
      bgt_eq_false_of_beq pc a a ha, ha]
  all_goals rename_i bp
  all_goals obtain ⟨l, r⟩ := bp
  all_goals
    have hlt : pc.blt l r = true := by
      simpa [Interval.wellFormedP] using hwf
  all_goals
    simp [Interval.doubleComplementP, Interval.complement, firstPiece,
      Interval.intersectP, Interval.left_partial_cmpP,
      Interval.right_partial_cmpP, Interval.left_bound, Interval.right_bound,
      leftBoundCmpP, rightBoundCmpP, reassembleP,
      bgt_eq_false_of_blt pc l r hlt, beq_eq_false_of_blt pc l r hlt,
      bge_eq_false_of_blt pc l r hlt]

theorem claim_C5_witness :
    (Interval.Closed ⟨1, 5⟩ : Interval ℤ).doubleComplementP (linearPcmp ℤ)
      = .Closed ⟨1, 5⟩ :=
  claim_C5 (linearPcmp ℤ) (Interval.Closed ⟨1, 5⟩) (by decide) (by decide)

/-- A defined width of a reassembled Closed/Closed pair is the difference
of the chosen values. -/
lemma width_reassemble_cc [LinearOrder T] [Sub T] (M m w : T)
    (h : (reassemble (Bound.Closed M) (Bound.Closed m)).width = some w) :
    w = m - M := by
  by_cases hgt : M > m
  · simp [reassemble, hgt, Interval.width, Interval.left_bound,
      Interval.right_bound] at h
  · by_cases heq : M = m
    · subst heq
      simp [reassemble, gt_iff_lt, lt_self_iff_false, Interval.width,
        Interval.left_bound, Interval.right_bound] at h
      exact h.symm
    · simp [reassemble, hgt, heq, Interval.width, Interval.left_bound,
        Interval.right_bound] at h
      exact h.symm

/-- A defined width of a reassembled Open/Open pair is the difference of
the chosen values. -/
lemma width_reassemble_oo [LinearOrder T] [Sub T] (M m w : T)
    (h : (reassemble (Bound.Open M) (Bound.Open m)).width = some w) :
    w = m - M := by
  by_cases hge : M ≥ m
  · simp [reassemble, hge, Interval.width, Interval.left_bound,
      Interval.right_bound] at h
  · simp [reassemble, hge, Interval.width, Interval.left_bound,
      Interval.right_bound] at h
    exact h.symm

/-- A defined width of a reassembled Open/Closed pair is the difference of
the chosen values. -/
lemma width_reassemble_oc [LinearOrder T] [Sub T] (M m w : T)
    (h : (reassemble (Bound.Open M) (Bound.Closed m)).width = some w) :
    w = m - M := by
  by_cases hge : M ≥ m
  · simp [reassemble, hge, Interval.width, Interval.left_bound,
      Interval.right_bound] at h
  · simp [reassemble, hge, Interval.width, Interval.left_bound,
      Interval.right_bound] at h
    exact h.symm

/-- A defined width of a reassembled Closed/Open pair is the difference of
the chosen values. -/
lemma width_reassemble_co [LinearOrder T] [Sub T] (M m w : T)
    (h : (reassemble (Bound.Closed M) (Bound.Open m)).width = some w) :
    w = m - M := by
  by_cases hge : M ≥ m
  · simp [reassemble, hge, Interval.width, Interval.left_bound,
      Interval.right_bound] at h
  · simp [reassemble, hge, Interval.width, Interval.left_bound,
      Interval.right_bound] at h
    exact h.symm

/-- Width of the intersection never exceeds the operands' widths, whenever
all three widths are defined. -/
def widthNonGrow [LinearOrder T] [Sub T] (i1 i2 : Interval T) : Prop :=
  ∀ w1 w2 w, i1.width = some w1 → i2.width = some w2 →
    (i1.intersect i2).width = some w → w ≤ w1 ∧ w ≤ w2

/-- Claim C7: for well-formed intervals of the same two-sided shape,
whenever the widths of both operands and of the intersection are defined,
the intersection's width is at most each operand's width. -/
theorem claim_C7 {T : Type} [LinearOrderedAddCommGroup T]
    (bp1 bp2 : BoundPair T)
    (h1 : bp1.left < bp1.right) (h2 : bp2.left < bp2.right) :
    widthNonGrow (Interval.Closed bp1) (.Closed bp2) ∧
    widthNonGrow (Interval.Open bp1) (.Open bp2) ∧
    widthNonGrow (Interval.LeftHalfOpen bp1) (.LeftHalfOpen bp2) ∧
    widthNonGrow (Interval.RightHalfOpen bp1) (.RightHalfOpen bp2) := by
  obtain ⟨l1, r1⟩ := bp1
  obtain ⟨l2, r2⟩ := bp2
  refine ⟨?_, ?_, ?_, ?_⟩
  · intro w1 w2 w hw1 hw2 hw
    simp only [Interval.width, Interval.left_bound, Interval.right_bound,
      Option.some.injEq] at hw1 hw2
    subst hw1
    subst hw2
    rw [intersect_Closed_Closed] at hw
    have hww := width_reassemble_cc _ _ _ hw
    subst hww
    exact ⟨le_trans (sub_le_sub_right (min_le_left _ _) _)
        (sub_le_sub_left (le_max_left _ _) _),
      le_trans (sub_le_sub_right (min_le_right _ _) _)
        (sub_le_sub_left (le_max_right _ _) _)⟩
  · intro w1 w2 w hw1 hw2 hw
    simp only [Interval.width, Interval.left_bound, Interval.right_bound,
      Option.some.injEq] at hw1 hw2
    subst hw1
    subst hw2
    rw [intersect_Open_Open] at hw
    have hww := width_reassemble_oo _ _ _ hw
    subst hww
    exact ⟨le_trans (sub_le_sub_right (min_le_left _ _) _)
        (sub_le_sub_left (le_max_left _ _) _),
      le_trans (sub_le_sub_right (min_le_right _ _) _)
        (sub_le_sub_left (le_max_right _ _) _)⟩
  · intro w1 w2 w hw1 hw2 hw
    simp only [Interval.width, Interval.left_bound, Interval.right_bound,
      Option.some.injEq] at hw1 hw2
    subst hw1
    subst hw2
    rw [intersect_LeftHalfOpen_LeftHalfOpen] at hw
    have hww := width_reassemble_oc _ _ _ hw
    subst hww
    exact ⟨le_trans (sub_le_sub_right (min_le_left _ _) _)
        (sub_le_sub_left (le_max_left _ _) _),
      le_trans (sub_le_sub_right (min_le_right _ _) _)
        (sub_le_sub_left (le_max_right _ _) _)⟩
  · intro w1 w2 w hw1 hw2 hw
    simp only [Interval.width, Interval.left_bound, Interval.right_bound,
      Option.some.injEq] at hw1 hw2
    subst hw1
    subst hw2
    rw [intersect_RightHalfOpen_RightHalfOpen] at hw
    have hww := width_reassemble_co _ _ _ hw
    subst hww
    exact ⟨le_trans (sub_le_sub_right (min_le_left _ _) _)
        (sub_le_sub_left (le_max_left _ _) _),
      le_trans (sub_le_sub_right (min_le_right _ _) _)
        (sub_le_sub_left (le_max_right _ _) _)⟩

theorem claim_C7_witness :
    widthNonGrow (Interval.Closed ⟨0, 5⟩ : Interval ℤ) (.Closed ⟨3, 8⟩) ∧
    widthNonGrow (Interval.Open ⟨0, 5⟩ : Interval ℤ) (.Open ⟨3, 8⟩) ∧
    widthNonGrow (Interval.LeftHalfOpen ⟨0, 5⟩ : Interval ℤ)
      (.LeftHalfOpen ⟨3, 8⟩) ∧
    widthNonGrow (Interval.RightHalfOpen ⟨0, 5⟩ : Interval ℤ)
      (.RightHalfOpen ⟨3, 8⟩) :=
  claim_C7 ⟨0, 5⟩ ⟨3, 8⟩ (by decide) (by decide)

end IntervalsGeneral
